import Mathlib

/-!
Verification development for the dalia chat streaming core.

The definitions below are a shallow embedding of the TypeScript source:
- `useChatSender.sendMessage` (streaming and fallback paths), its inner
  `processEvent` / `flushBuffer` helpers and the read loop, from
  `frontend/lib/chat/useChatSender.ts`;
- the page-level handlers `handleBeforeSend`, `handleStreamEvent`,
  `handleResponse`, `handleSendError` and the `combinedMessages` view, from
  `frontend/app/chat/[chatId]/ChatPageContent.tsx`.

Text is modelled as `List Char`; JavaScript string values held in session
state are modelled as Lean `String`.  `JSON.parse` is a platform primitive,
so the payload decoder is an explicit parameter
`decode : List Char → Option ChatStreamEvent`; a decode failure is `none`.
JavaScript whitespace (`\s`, `String.prototype.trim`) is modelled by
`Char.isWhitespace` (space, tab, CR, LF), which covers every character the
claims exercise.
-/

set_option autoImplicit false

namespace Dalia

/-! ### Data model (`ChatMessageModel`, `ChatResponse`, `ChatStreamEvent`) -/

/-- One chat message as carried by the API (`role` is `"user"` or
`"assistant"`, `content` the text). -/
structure ChatMessageModel where
  role : String
  content : String
deriving Repr, DecidableEq

/-- The fallback / terminal response payload
`{ conversation_id, messages, latest_message? }`. -/
structure ChatResponse where
  conversation_id : String
  messages : List ChatMessageModel
  latest_message : Option ChatMessageModel
deriving Repr, DecidableEq

/-- The tagged stream event union `ChatStreamEvent` from `useChatSender.ts`. -/
inductive ChatStreamEvent where
  | start (conversation_id : String)
  | content (chunk : String)
  | complete (conversation_id : String) (messages : List ChatMessageModel)
  | error (error : Option String)
deriving Repr, DecidableEq

/-- An optimistic message entry: `ChatMessageModel & \x7b pending?: boolean \x7d`;
an absent `pending` field is modelled as `false`. -/
structure OptimisticMessage where
  role : String
  content : String
  pending : Bool
deriving Repr, DecidableEq

/-- Body of the outbound POST request: `\x7b message, conversation_id? \x7d`. -/
structure ChatRequest where
  message : String
  conversation_id : Option String
deriving Repr, DecidableEq

/-! ### Frame decoder (`flushBuffer`'s record extraction)

The source keeps a string `buffer` and repeatedly executes
`separatorIndex = buffer.indexOf("\n\n");
 rawEvent = buffer.slice(0, separatorIndex);
 buffer = buffer.slice(separatorIndex + 2)` until no separator remains.
`firstSepSplit` models one `indexOf` + the two slices: it returns the text
before the first (leftmost) occurrence of `"\n\n"` together with the text
after it, or `none` when the separator does not occur. -/

/-- Leftmost split at `"\n\n"`: `firstSepSplit b = some (pre, post)` iff the
separator occurs in `b`, `pre` is the part before its first occurrence and
`post` the part after it (`b = pre ++ '\n' :: '\n' :: post`). -/
def firstSepSplit : List Char → Option (List Char × List Char)
  | [] => none
  | [_] => none
  | c1 :: c2 :: rest =>
      if c1 = '\n' ∧ c2 = '\n' then some ([], rest)
      else
        match firstSepSplit (c2 :: rest) with
        | none => none
        | some (pre, post) => some (c1 :: pre, post)

theorem firstSepSplit_length :
    ∀ (b pre post : List Char), firstSepSplit b = some (pre, post) →
      post.length < b.length := by
  intro b
  induction b with
  | nil => intro pre post h; simp [firstSepSplit] at h
  | cons c1 b' ih =>
    intro pre post h
    cases b' with
    | nil => simp [firstSepSplit] at h
    | cons c2 rest =>
      rw [firstSepSplit] at h
      split at h
      · simp only [Option.some.injEq, Prod.mk.injEq] at h
        simp [← h.2]
        omega
      · cases hrec : firstSepSplit (c2 :: rest) with
        | none => rw [hrec] at h; simp at h
        | some p =>
          rw [hrec] at h
          simp only [Option.some.injEq] at h
          have hlen := ih p.1 p.2 (by rw [hrec])
          have hp : post = p.2 := by
            cases p; cases h; rfl
          rw [hp]
          simp only [List.length_cons] at hlen ⊢
          omega

/-- The `while (separatorIndex !== -1)` loop of `flushBuffer`, at the level
of records: returns the list of complete records extracted from the buffer
(in order) together with the unterminated remainder. -/
def flushBufferRecords (buffer : List Char) : List (List Char) × List Char :=
  match h : firstSepSplit buffer with
  | none => ([], buffer)
  | some (rawEvent, rest) =>
      let p := flushBufferRecords rest
      (rawEvent :: p.1, p.2)
termination_by buffer.length
decreasing_by exact firstSepSplit_length buffer rawEvent rest h

/-- Structural single-pass twin of `flushBufferRecords` (same leftmost-first
splitting at `"\n\n"`, fused into one scan); used so that concrete runs
reduce by evaluation.  `flushBufferRecords_eq_splitRecords` proves it equal
to the literal loop transliteration. -/
def splitRecords : List Char → List (List Char) × List Char
  | [] => ([], [])
  | [c] => ([], [c])
  | c1 :: c2 :: rest =>
      if c1 = '\n' ∧ c2 = '\n' then
        ([] :: (splitRecords rest).1, (splitRecords rest).2)
      else
        match splitRecords (c2 :: rest) with
        | ([], buf) => ([], c1 :: buf)
        | (r :: rs, buf) => ((c1 :: r) :: rs, buf)

/-! ### Trimming and the fragment-level decoder -/

/-- Model of JavaScript `String.prototype.trim`: drop whitespace from both
ends. -/
def trimChars (s : List Char) : List Char :=
  ((s.dropWhile Char.isWhitespace).reverse.dropWhile Char.isWhitespace).reverse

/-- `String.prototype.trim` on a modelled JavaScript string value. -/
def trimString (s : String) : String :=
  String.mk (trimChars s.data)

/-- One iteration of the read loop at record level: append the incoming
fragment to the buffer, run the `flushBuffer` while loop, collect the
extracted records. -/
def feedFragment (acc : List (List Char) × List Char) (fragment : List Char) :
    List (List Char) × List Char :=
  let p := flushBufferRecords (acc.2 ++ fragment)
  (acc.1 ++ p.1, p.2)

/-- The whole buffer-and-flush decoder: feed every fragment in order
(`buffer += chunk; flushBuffer()`), then perform the end-of-input final
flush (`flushBuffer(true)`): if the remaining buffer is non-empty after
trimming, it is emitted as one final record. -/
def decodeFragments (fragments : List (List Char)) : List (List Char) :=
  let acc := fragments.foldl feedFragment ([], [])
  if 0 < (trimChars acc.2).length then acc.1 ++ [acc.2] else acc.1

/-! ### Event parser (`processEvent`'s record-to-payload part) -/

/-- The `"data:"` marker. -/
def dataMarker : List Char := 'd' :: 'a' :: 't' :: 'a' :: ':' :: []

/-- Model of `String.prototype.split("\n")`. -/
def splitLines : List Char → List (List Char)
  | [] => [[]]
  | c :: rest =>
      if c = '\n' then [] :: splitLines rest
      else
        match splitLines rest with
        | [] => [[c]]
        | l :: ls => (c :: l) :: ls

/-- Model of `line.replace(/^data:\s*/, "")`: remove the leading `"data:"`
marker together with every whitespace character immediately following it;
a line without the marker is returned unchanged. -/
def replaceDataPrefix (line : List Char) : List Char :=
  if dataMarker.isPrefixOf line then (line.drop 5).dropWhile Char.isWhitespace
  else line

/-- The pure part of `processEvent`: trim the raw record; an empty trimmed
record yields nothing; keep the lines starting with `"data:"`, strip the
marker (and following whitespace) from each, and rejoin them with `"\n"`;
zero data lines yield nothing.  The result is the string handed to
`JSON.parse`. -/
def extractPayload (rawEvent : List Char) : Option (List Char) :=
  let trimmedEvent := trimChars rawEvent
  if trimmedEvent.length = 0 then none
  else
    let dataLines :=
      ((splitLines trimmedEvent).filter
        (fun line => dataMarker.isPrefixOf line)).map replaceDataPrefix
    if dataLines.length = 0 then none
    else some (List.intercalate ['\n'] dataLines)

/-- Record-to-event parsing: extract the payload and `JSON.parse` it via the
abstract decoder; any failure (empty record, no data line, decode failure)
yields `none` and the record is discarded. -/
def parseRecord (decode : List Char → Option ChatStreamEvent)
    (rawEvent : List Char) : Option ChatStreamEvent :=
  (extractPayload rawEvent).bind decode

/-! ### Spec-side parser definitions (for the parser-contract claim)

`claimParse` transcribes the specification's parser contract as written:
extract all lines prefixed with the data marker, strip the marker and one
following space from each, join the remaining lines with newlines, decode
the result; a record with zero data lines produces no event.
`amendedParse` is the amended contract: the record is trimmed first, and
the strip removes the marker together with all immediately following
whitespace. -/

/-- Strip the `"data:"` marker and one following space, as the
specification sentence describes. -/
def stripMarkerOneSpace (line : List Char) : List Char :=
  match line.drop 5 with
  | ' ' :: rest => rest
  | other => other

/-- The parser contract exactly as the specification states it (no record
trimming, one-space stripping). -/
def claimParse (decode : List Char → Option ChatStreamEvent)
    (rawEvent : List Char) : Option ChatStreamEvent :=
  let dataLines :=
    ((splitLines rawEvent).filter
      (fun line => dataMarker.isPrefixOf line)).map stripMarkerOneSpace
  if dataLines.length = 0 then none
  else decode (List.intercalate ['\n'] dataLines)

/-- The amended parser contract: trim the record first; strip the marker
and every immediately following whitespace character. -/
def amendedParse (decode : List Char → Option ChatStreamEvent)
    (rawEvent : List Char) : Option ChatStreamEvent :=
  let dataLines :=
    ((splitLines (trimChars rawEvent)).filter
      (fun line => dataMarker.isPrefixOf line)).map
        (fun line => (line.drop 5).dropWhile Char.isWhitespace)
  if dataLines.length = 0 then none
  else decode (List.intercalate ['\n'] dataLines)

/-! ### Session state

`SessionState` combines the `useChatSender` hook state
(`conversationId`, `isSending`, `error`) with the `ChatPageContent` state
(`optimisticMessages`, `streamError`, the react-query cache written by
`handleResponse`) and append-only logs of every hook invocation and
outbound request, so that temporal claims are observable on the final
state. -/

structure SessionState where
  conversationId : Option String
  isSending : Bool
  error : Option String
  optimisticMessages : List OptimisticMessage
  streamError : Option String
  chatCache : List (String × ChatResponse)
  beforeSendLog : List String
  eventLog : List ChatStreamEvent
  responseLog : List ChatResponse
  errorLog : List String
  requestLog : List ChatRequest
deriving Repr, DecidableEq

/-- The per-call read-loop state: session state plus the local `buffer` and
`encounteredError` variables of `sendMessage`. -/
structure StreamLoop where
  st : SessionState
  buffer : List Char
  encounteredError : Bool
deriving Repr, DecidableEq

/-- Default text used by `handleSendError` when called without a message. -/
def defaultSendErrorText : String :=
  "We couldn't send your message. Please try again."

/-- Default text used by `processEvent` for an `Error` event without an
`error` field. -/
def defaultStreamErrorText : String :=
  "Something went wrong while streaming your message."

/-! ### Page-level handlers (`ChatPageContent.tsx`) -/

/-- `handleBeforeSend`: clear both error slots and seed the optimistic list
with the user's message and an empty pending assistant entry. -/
def handleBeforeSend (st : SessionState) (content : String) : SessionState :=
  { st with
      streamError := none
      error := none
      optimisticMessages :=
        [⟨"user", content, false⟩, ⟨"assistant", "", true⟩] }

/-- `handleSendError`: drop the optimistic messages and record the message
(or the default text) as the page-level stream error. -/
def handleSendError (st : SessionState) (message : Option String) :
    SessionState :=
  { st with
      optimisticMessages := []
      streamError := some (message.getD defaultSendErrorText) }

/-- `handleResponse`: clear the stream error, drop the optimistic messages
wholesale and write the authoritative response into the react-query cache
under its conversation id. -/
def handleResponse (st : SessionState) (response : ChatResponse) :
    SessionState :=
  { st with
      streamError := none
      optimisticMessages := []
      chatCache := (response.conversation_id, response) :: st.chatCache }

/-- The `content` branch of `handleStreamEvent`: append the chunk to the
first assistant entry (creating a pending assistant entry when the list is
empty or has no assistant entry). -/
def contentAppend (previous : List OptimisticMessage) (chunk : String) :
    List OptimisticMessage :=
  if previous.length = 0 then [⟨"assistant", chunk, true⟩]
  else
    match previous.findIdx? (fun item => item.role == "assistant") with
    | none => previous ++ [⟨"assistant", chunk, true⟩]
    | some assistantIndex =>
        match previous[assistantIndex]? with
        | none => previous
        | some assistantMessage =>
            previous.set assistantIndex
              ⟨assistantMessage.role, assistantMessage.content ++ chunk, true⟩

/-- `handleStreamEvent`: the page-level reaction to one forwarded stream
event. -/
def handleStreamEvent (st : SessionState) (event : ChatStreamEvent) :
    SessionState :=
  match event with
  | .start _ => { st with streamError := none, error := none }
  | .content chunk =>
      { st with optimisticMessages := contentAppend st.optimisticMessages chunk }
  | .error e => handleSendError st e
  | .complete _ _ => st

/-! ### Hook invocation wrappers (log the call, then run the page handler
that is wired to the hook in `ChatPageContent.handleSendMessage`). -/

def onBeforeSend (st : SessionState) (message : String) : SessionState :=
  handleBeforeSend { st with beforeSendLog := st.beforeSendLog ++ [message] }
    message

def onStreamEvent (st : SessionState) (event : ChatStreamEvent) :
    SessionState :=
  handleStreamEvent { st with eventLog := st.eventLog ++ [event] } event

def onResponse (st : SessionState) (response : ChatResponse) : SessionState :=
  handleResponse { st with responseLog := st.responseLog ++ [response] }
    response

def onError (st : SessionState) (message : String) : SessionState :=
  handleSendError { st with errorLog := st.errorLog ++ [message] }
    (some message)

/-! ### `processEvent`'s state effects and the read loop -/

/-- The `latest_message` synthesis of the `complete` branch of
`processEvent`: `payload.messages?.length ?? 0 ? messages[length-1] :
undefined`. -/
def synthesizeResponse (cid : String) (messages : List ChatMessageModel) :
    ChatResponse :=
  { conversation_id := cid
    messages := messages
    latest_message :=
      if messages.length = 0 then none
      else messages[messages.length - 1]? }

/-- Apply one successfully decoded payload: the `type` dispatch of
`processEvent`, followed by the unconditional forwarding
`onStreamEvent?.(payload)`. -/
def applyEvent (L : StreamLoop) (payload : ChatStreamEvent) : StreamLoop :=
  let L1 :=
    match payload with
    | .start cid =>
        { L with st := { L.st with conversationId := some cid } }
    | .error e =>
        let message := e.getD defaultStreamErrorText
        let st1 := { L.st with error := some message }
        let st2 := onError st1 message
        { L with st := st2, encounteredError := true }
    | .complete cid messages =>
        let st1 := { L.st with conversationId := some cid }
        let st2 := onResponse st1 (synthesizeResponse cid messages)
        { L with st := st2 }
    | .content _ => L
  { L1 with st := onStreamEvent L1.st payload }

/-- `processEvent`: parse the raw record and apply the payload; a record
that produces no payload leaves the state untouched. -/
def processEvent (decode : List Char → Option ChatStreamEvent)
    (L : StreamLoop) (rawEvent : List Char) : StreamLoop :=
  match parseRecord decode rawEvent with
  | none => L
  | some payload => applyEvent L payload

/-- The `flushBuffer()` call: extract every complete record from the buffer
(leftmost-first at `"\n\n"`), keep the remainder, and run `processEvent` on
each record in order.  Record extraction uses `splitRecords`, proved equal
to the literal `indexOf`-loop transliteration by
`flushBufferRecords_eq_splitRecords`. -/
def flushBuffer (decode : List Char → Option ChatStreamEvent)
    (L : StreamLoop) : StreamLoop :=
  let p := splitRecords L.buffer
  p.1.foldl (processEvent decode) { L with buffer := p.2 }

/-- The `flushBuffer(true)` call at end-of-input: flush, then emit the
remaining buffer as one final record when it is non-empty after trimming. -/
def flushFinal (decode : List Char → Option ChatStreamEvent)
    (L : StreamLoop) : StreamLoop :=
  let L1 := flushBuffer decode L
  if 0 < (trimChars L1.buffer).length then
    processEvent decode { L1 with buffer := [] } L1.buffer
  else L1

/-- The `while (true) { reader.read() ... }` loop: each list element is one
chunk delivered by the reader; exhausting the list is the `done` signal.
Returns the final loop state together with the loop states observed at each
read suspension point (used for the sending-flag claim). -/
def readLoop (decode : List Char → Option ChatStreamEvent) :
    StreamLoop → List (List Char) → StreamLoop × List StreamLoop
  | L, [] => (flushFinal decode L, [])
  | L, fragment :: rest =>
      let L1 := flushBuffer decode { L with buffer := L.buffer ++ fragment }
      if L1.encounteredError then (L1, [L1])
      else
        let p := readLoop decode L1 rest
        (p.1, L1 :: p.2)

/-! ### `sendMessage` -/

/-- Result of the fallback `postChatChatPost` exchange: a payload, or a
rejection whose error carries a message. -/
inductive FallbackResult where
  | ok (payload : ChatResponse)
  | error (message : String)
deriving Repr, DecidableEq

/-- Result of one `sendMessage` call: `error m` models a rejected promise
whose error carries message `m`; `ok` carries the returned payload, if
any (the streaming path and the empty-input no-op return no payload). -/
inductive SendResult where
  | ok (payload : Option ChatResponse)
  | error (message : String)
deriving Repr, DecidableEq

/-- The environment of one `sendMessage` call: the fallback
`postChatChatPost` result (payload, or rejection message), and the
streaming `fetch` result (`none` models `!response.ok || !response.body`;
`some fragments` is the readable body as a chunk sequence). -/
structure TransportModel where
  streamFragments : Option (List (List Char))
  fallbackResult : FallbackResult
deriving Repr, DecidableEq

/-- Full model of `useChatSender.sendMessage`.  Returns the final session
state, the call result (`Except.error m` models a rejected promise whose
error carries message `m`; `Except.ok` carries the returned payload, if
any), and the read-loop trace. -/
def sendMessage (decode : List Char → Option ChatStreamEvent)
    (st : SessionState) (providedConversationId : Option String)
    (message : String) (useStreaming : Bool) (transport : TransportModel) :
    SessionState × SendResult × List StreamLoop :=
  let trimmed := trimString message
  if trimmed = "" then (st, SendResult.ok none, [])
  else
    let st1 := { st with isSending := true, error := none }
    let st2 := onBeforeSend st1 trimmed
    let effectiveConversationId :=
      match providedConversationId with
      | some cid => some cid
      | none => st2.conversationId
    if useStreaming = false then
      let st3 := { st2 with requestLog :=
        st2.requestLog ++ [ChatRequest.mk trimmed effectiveConversationId] }
      match transport.fallbackResult with
      | FallbackResult.ok payload =>
          let st4 := { st3 with conversationId := some payload.conversation_id }
          let st5 := onResponse st4 payload
          ({ st5 with isSending := false }, SendResult.ok (some payload), [])
      | FallbackResult.error errMessage =>
          let st4 := { st3 with error := some errMessage }
          let st5 := onError st4 errMessage
          ({ st5 with isSending := false }, SendResult.error errMessage, [])
    else
      let st3 := { st2 with requestLog :=
        st2.requestLog ++ [ChatRequest.mk trimmed effectiveConversationId] }
      match transport.streamFragments with
      | none =>
          let failMessage := "Unable to start streaming response."
          let st4 := { st3 with error := some failMessage }
          let st5 := onError st4 failMessage
          ({ st5 with isSending := false }, SendResult.error failMessage, [])
      | some fragments =>
          let p := readLoop decode ⟨st3, [], false⟩ fragments
          if p.1.encounteredError then
            let failMessage := "Streaming failed."
            let st4 := { p.1.st with error := some failMessage }
            let st5 := onError st4 failMessage
            ({ st5 with isSending := false }, SendResult.error failMessage, p.2)
          else
            ({ p.1.st with isSending := false }, SendResult.ok none, p.2)

/-- The server-side messages currently visible for a conversation id:
the cached response written by `handleResponse`, if any. -/
def serverMessages (st : SessionState) (cid : String) :
    List ChatMessageModel :=
  match st.chatCache.lookup cid with
  | some response => response.messages
  | none => []

/-- `combinedMessages` from `ChatPageContent`: server messages followed by
the optimistic messages (server entries have no pending flag). -/
def combinedMessages (st : SessionState) (cid : String) :
    List OptimisticMessage :=
  (serverMessages st cid).map (fun m => ⟨m.role, m.content, false⟩) ++
    st.optimisticMessages

/-- Number of assistant entries in an optimistic message list. -/
def assistantEntryCount (ms : List OptimisticMessage) : Nat :=
  (ms.filter (fun m => m.role == "assistant")).length

/-- Number of pending assistant entries in an optimistic message list. -/
def pendingAssistantCount (ms : List OptimisticMessage) : Nat :=
  (ms.filter (fun m => m.role == "assistant" && m.pending)).length

/-! ### Concrete fixtures for witnesses and counterexamples -/

/-- A concrete decoder fixture mapping the payloads `P1`, `P2`, `P3` to a
`start`, a field-less `error` and a `content` event. -/
def decodeFix : List Char → Option ChatStreamEvent := fun s =>
  if s = "P1".data then some (ChatStreamEvent.start "c1")
  else if s = "P2".data then some (ChatStreamEvent.error none)
  else if s = "P3".data then some (ChatStreamEvent.content "more")
  else none

/-- A concrete decoder fixture mapping the payload `P` to a `content`
event. -/
def decodeFixP : List Char → Option ChatStreamEvent := fun s =>
  if s = "P".data then some (ChatStreamEvent.content "hi") else none

/-- A fresh session state (new conversation view, nothing sent yet). -/
def emptyState : SessionState :=
  ⟨none, false, none, [], none, [], [], [], [], [], []⟩

/-! ### Lemmas about the frame decoder -/

theorem splitRecords_of_none :
    ∀ (b : List Char), firstSepSplit b = none → splitRecords b = ([], b) := by
  intro b
  induction b with
  | nil => intro _; rfl
  | cons c1 b' ih =>
    intro h
    cases b' with
    | nil => rfl
    | cons c2 rest =>
      rw [firstSepSplit] at h
      split at h
      · exact absurd h (by simp)
      · cases hrec : firstSepSplit (c2 :: rest) with
        | none =>
          have hb' := ih hrec
          rw [splitRecords]
          rw [if_neg (by assumption), hb']
        | some p => rw [hrec] at h; simp at h

theorem splitRecords_of_some :
    ∀ (b pre post : List Char), firstSepSplit b = some (pre, post) →
      splitRecords b =
        (pre :: (splitRecords post).1, (splitRecords post).2) := by
  intro b
  induction b with
  | nil => intro pre post h; simp [firstSepSplit] at h
  | cons c1 b' ih =>
    intro pre post h
    cases b' with
    | nil => simp [firstSepSplit] at h
    | cons c2 rest =>
      rw [firstSepSplit] at h
      split at h
      · simp only [Option.some.injEq, Prod.mk.injEq] at h
        rw [splitRecords, if_pos (by assumption)]
        rw [← h.1, ← h.2]
      · cases hrec : firstSepSplit (c2 :: rest) with
        | none => rw [hrec] at h; simp at h
        | some p =>
          rw [hrec] at h
          simp only [Option.some.injEq] at h
          obtain ⟨pre', post'⟩ := p
          have hrw := ih pre' post' hrec
          rw [splitRecords, if_neg (by assumption), hrw]
          cases h
          rfl

theorem flushBufferRecords_eq_splitRecords (b : List Char) :
    flushBufferRecords b = splitRecords b := by
  have H : ∀ (n : Nat) (b : List Char), b.length ≤ n →
      flushBufferRecords b = splitRecords b := by
    intro n
    induction n with
    | zero =>
      intro b hb
      have hb0 : b = [] := List.length_eq_zero.mp (Nat.le_zero.mp hb)
      subst hb0
      rw [flushBufferRecords]
      rfl
    | succ n ih =>
      intro b hb
      rw [flushBufferRecords.eq_def]
      split
      next hnone => rw [splitRecords_of_none b hnone]
      next rawEvent rest hsome =>
        have hlt := firstSepSplit_length b rawEvent rest hsome
        have heq := ih rest (by omega)
        rw [splitRecords_of_some b rawEvent rest hsome, heq]
  exact H b.length b (le_refl _)

theorem splitRecords_fst_nil :
    ∀ (a : List Char), (splitRecords a).1 = [] → (splitRecords a).2 = a := by
  intro a
  induction a using splitRecords.induct with
  | case1 => intro _; rfl
  | case2 c => intro _; rfl
  | case3 c1 c2 rest hsep ih =>
    intro h
    rw [splitRecords, if_pos hsep] at h
    simp at h
  | case4 c1 c2 rest hsep buf heq ih =>
    intro _
    rw [splitRecords, if_neg hsep, heq]
    have hbuf : buf = c2 :: rest := by
      have := ih (by rw [heq])
      rw [heq] at this
      exact this
    simp [hbuf]
  | case5 c1 c2 rest hsep r rs buf heq ih =>
    intro h
    rw [splitRecords, if_neg hsep, heq] at h
    simp at h

theorem firstSepSplit_of_fst_nil (a : List Char)
    (h : (splitRecords a).1 = []) : firstSepSplit a = none := by
  cases hs : firstSepSplit a with
  | none => rfl
  | some p =>
    rw [splitRecords_of_some a p.1 p.2 (by rw [hs])] at h
    simp at h

/-- The remainder left by the record splitter contains no separator. -/
theorem firstSepSplit_splitRecords_snd :
    ∀ (a : List Char), firstSepSplit ((splitRecords a).2) = none := by
  intro a
  induction a using splitRecords.induct with
  | case1 => rfl
  | case2 c => rfl
  | case3 c1 c2 rest hsep ih =>
    rw [splitRecords, if_pos hsep]
    exact ih
  | case4 c1 c2 rest hsep buf heq ih =>
    rw [splitRecords, if_neg hsep, heq]
    have hbuf : buf = c2 :: rest := by
      have := splitRecords_fst_nil (c2 :: rest) (by rw [heq])
      rw [heq] at this
      exact this
    subst hbuf
    have hnone : firstSepSplit (c2 :: rest) = none :=
      firstSepSplit_of_fst_nil _ (by rw [heq])
    show firstSepSplit (c1 :: c2 :: rest) = none
    rw [firstSepSplit, if_neg hsep, hnone]
  | case5 c1 c2 rest hsep r rs buf heq ih =>
    rw [splitRecords, if_neg hsep, heq]
    rw [heq] at ih
    exact ih

/-- Compositionality of leftmost-first record splitting: splitting `a ++ b`
extracts first the records wholly inside `a`, then the records of the
remainder of `a` glued to `b`. -/
theorem splitRecords_append :
    ∀ (a b : List Char),
      splitRecords (a ++ b) =
        ((splitRecords a).1 ++ (splitRecords ((splitRecords a).2 ++ b)).1,
          (splitRecords ((splitRecords a).2 ++ b)).2) := by
  intro a
  induction a using splitRecords.induct with
  | case1 => intro b; simp [splitRecords]
  | case2 c => intro b; simp [splitRecords]
  | case3 c1 c2 rest hsep ih =>
    intro b
    have hl : (c1 :: c2 :: rest) ++ b = c1 :: c2 :: (rest ++ b) := by simp
    rw [hl, splitRecords, if_pos hsep, ih b]
    rw [show splitRecords (c1 :: c2 :: rest) =
          ([] :: (splitRecords rest).1, (splitRecords rest).2) by
        rw [splitRecords, if_pos hsep]]
    simp
  | case4 c1 c2 rest hsep buf heq ih =>
    intro b
    have hbuf : buf = c2 :: rest := by
      have := splitRecords_fst_nil (c2 :: rest) (by rw [heq])
      rw [heq] at this
      exact this
    rw [show splitRecords (c1 :: c2 :: rest) = ([], c1 :: buf) by
        rw [splitRecords, if_neg hsep, heq]]
    subst hbuf
    simp
  | case5 c1 c2 rest hsep r rs buf heq ih =>
    intro b
    have hSa : splitRecords (c1 :: c2 :: rest) = ((c1 :: r) :: rs, buf) := by
      rw [splitRecords, if_neg hsep, heq]
    have hih := ih b
    rw [heq] at hih
    simp only [List.cons_append] at hih ⊢
    simp only [hSa]
    rw [splitRecords, if_neg hsep, hih]
    simp

theorem feedFragment_eq (acc : List (List Char) × List Char)
    (fragment : List Char) :
    feedFragment acc fragment =
      (acc.1 ++ (splitRecords (acc.2 ++ fragment)).1,
        (splitRecords (acc.2 ++ fragment)).2) := by
  rw [feedFragment, flushBufferRecords_eq_splitRecords]

theorem foldl_feedFragment_invariant :
    ∀ (fragments : List (List Char)) (rs : List (List Char)) (buf : List Char),
      (splitRecords buf).1 = [] →
      fragments.foldl feedFragment (rs, buf) =
        (rs ++ (splitRecords (buf ++ fragments.flatten)).1,
          (splitRecords (buf ++ fragments.flatten)).2) := by
  intro fragments
  induction fragments with
  | nil =>
    intro rs buf hred
    have h2 := splitRecords_fst_nil buf hred
    simp [hred, h2]
  | cons f fs ih =>
    intro rs buf hred
    have hstep : feedFragment (rs, buf) f =
        (rs ++ (splitRecords (buf ++ f)).1, (splitRecords (buf ++ f)).2) :=
      feedFragment_eq (rs, buf) f
    have hred' : (splitRecords ((splitRecords (buf ++ f)).2)).1 = [] := by
      rw [splitRecords_of_none _ (firstSepSplit_splitRecords_snd (buf ++ f))]
    have happ := splitRecords_append (buf ++ f) fs.flatten
    rw [List.foldl_cons, hstep, ih _ _ hred']
    rw [List.flatten_cons, ← List.append_assoc, happ]
    simp

/-! ### Claim C1 -/

/-- C1: Frame-decoder chunk-boundary independence — for every complete
input text and every partition of it into consecutive fragments, feeding
the fragments one at a time to the buffer-and-flush decoder (the
`flushBuffer` record extraction at separator `"\n\n"`, plus the final
flush at end-of-input) emits the identical ordered sequence of records as
feeding the whole text as one fragment. -/
theorem C1_frame_decoder_chunk_independence (fragments : List (List Char)) :
    decodeFragments fragments = decodeFragments [fragments.flatten] := by
  rw [decodeFragments, decodeFragments]
  have h1 := foldl_feedFragment_invariant fragments [] [] (by rfl)
  have h2 := foldl_feedFragment_invariant [fragments.flatten] [] [] (by rfl)
  simp only [List.flatten] at h1 h2 ⊢
  rw [h1, h2]
  simp

/-! ### Claim C3 -/

/-- C3 counterexample: the parser contract as stated in the specification
(no record trimming) disagrees with `processEvent`'s parsing on the record
`" data: P"` (leading space): the code trims the record and decodes the
payload `P`, while the stated contract finds no line prefixed with
`"data:"` and produces no event. -/
theorem C3_parser_contract_counterexample :
    parseRecord decodeFixP (" data: P").data =
      some (ChatStreamEvent.content "hi")
    ∧ claimParse decodeFixP (" data: P").data = none := by
  constructor
  · decide
  · decide

/-- C3 (amended): the parser first trims the record, extracts exactly the
lines prefixed with `"data:"`, strips the marker and any immediately
following whitespace from each, joins the remaining lines with newlines
and JSON-decodes the result; a trimmed record with zero data lines
produces no event, and a payload that fails to decode is discarded
silently, leaving the loop state unchanged (the stream is not aborted). -/
theorem C3_parser_contract_amended :
    (∀ (decode : List Char → Option ChatStreamEvent) (rawEvent : List Char),
      parseRecord decode rawEvent = amendedParse decode rawEvent)
    ∧ (∀ (decode : List Char → Option ChatStreamEvent) (rawEvent : List Char),
        (splitLines (trimChars rawEvent)).filter
          (fun line => dataMarker.isPrefixOf line) = [] →
        parseRecord decode rawEvent = none)
    ∧ (∀ (decode : List Char → Option ChatStreamEvent)
        (rawEvent payload : List Char),
        extractPayload rawEvent = some payload → decode payload = none →
        parseRecord decode rawEvent = none)
    ∧ (∀ (decode : List Char → Option ChatStreamEvent) (L : StreamLoop)
        (rawEvent : List Char),
        parseRecord decode rawEvent = none →
        processEvent decode L rawEvent = L) := by
  have hmain : ∀ (decode : List Char → Option ChatStreamEvent)
      (rawEvent : List Char),
      parseRecord decode rawEvent = amendedParse decode rawEvent := by
    intro decode rawEvent
    rw [parseRecord, extractPayload, amendedParse]
    by_cases h : (trimChars rawEvent).length = 0
    · have ht : trimChars rawEvent = [] := List.length_eq_zero.mp h
      rw [if_pos h, ht]
      simp [splitLines, dataMarker, List.IsPrefix]
    · rw [if_neg h]
      have hmap : ((splitLines (trimChars rawEvent)).filter
            (fun line => dataMarker.isPrefixOf line)).map replaceDataPrefix =
          ((splitLines (trimChars rawEvent)).filter
            (fun line => dataMarker.isPrefixOf line)).map
              (fun line => (line.drop 5).dropWhile Char.isWhitespace) := by
        apply List.map_congr_left
        intro a ha
        rw [List.mem_filter] at ha
        rw [replaceDataPrefix, if_pos ha.2]
      rw [hmap]
      by_cases h2 : (((splitLines (trimChars rawEvent)).filter
            (fun line => dataMarker.isPrefixOf line)).map
              (fun line => (line.drop 5).dropWhile Char.isWhitespace)).length = 0
      · rw [if_pos h2, if_pos h2]
        rfl
      · rw [if_neg h2, if_neg h2]
        rfl
  refine ⟨hmain, ?_, ?_, ?_⟩
  · intro decode rawEvent hfilter
    rw [hmain, amendedParse]
    simp [hfilter]
  · intro decode rawEvent payload hp hd
    rw [parseRecord, hp]
    exact hd
  · intro decode L rawEvent hnone
    rw [processEvent, hnone]

/-- C3 witness: concrete instances of the amended parser contract — a
record with no data line produces no event, an undecodable payload is
dropped, and the loop state is unchanged by the dropped record. -/
theorem C3_parser_contract_amended_witness :
    parseRecord decodeFixP ("xyz").data = none
    ∧ parseRecord decodeFixP ("data: Q").data = none
    ∧ processEvent decodeFixP ⟨emptyState, [], false⟩ ("data: Q").data =
        ⟨emptyState, [], false⟩ := by
  refine ⟨?_, ?_, ?_⟩
  · exact C3_parser_contract_amended.2.1 decodeFixP _ (by decide)
  · exact C3_parser_contract_amended.2.2.1 decodeFixP _ ("Q").data
      (by decide) (by decide)
  · exact C3_parser_contract_amended.2.2.2 decodeFixP _ _ (by decide)

/-! ### Claims C6 and C10 -/

theorem synthesizeResponse_latest (cid : String)
    (msgs : List ChatMessageModel) :
    synthesizeResponse cid msgs = ChatResponse.mk cid msgs msgs.getLast? := by
  rw [synthesizeResponse]
  cases msgs with
  | nil => rfl
  | cons m rest =>
    rw [if_neg (by simp)]
    rw [← List.getLast?_eq_getElem?]

/-- C6: Terminal replacement — after a `Complete` event the optimistic
messages are dropped wholesale (no residual pending entry) and the
observable combined message list for that conversation is exactly the
event's authoritative message sequence. -/
theorem C6_terminal_replacement (L : StreamLoop) (cid : String)
    (msgs : List ChatMessageModel) :
    (applyEvent L (ChatStreamEvent.complete cid msgs)).st.optimisticMessages
      = []
    ∧ combinedMessages (applyEvent L (ChatStreamEvent.complete cid msgs)).st
        cid = msgs.map (fun m => ⟨m.role, m.content, false⟩) := by
  constructor
  · simp [applyEvent, onResponse, handleResponse, onStreamEvent,
      handleStreamEvent]
  · simp [combinedMessages, serverMessages, applyEvent, onResponse,
      handleResponse, onStreamEvent, handleStreamEvent, synthesizeResponse,
      List.lookup]

/-- C10: `latest_message` synthesis — handling a `Complete` event invokes
the response hook with a payload whose `latest_message` is the last element
of the event's message list (or `none` when that list is empty), even
though the streaming event itself carries no such field. -/
theorem C10_latest_message_synthesis (L : StreamLoop) (cid : String)
    (msgs : List ChatMessageModel) :
    (applyEvent L (ChatStreamEvent.complete cid msgs)).st.responseLog =
      L.st.responseLog ++ [ChatResponse.mk cid msgs msgs.getLast?] := by
  simp [applyEvent, onResponse, handleResponse, onStreamEvent,
    handleStreamEvent, synthesizeResponse_latest]


/-! ### Lemmas about `contentAppend` (claim C5) -/

theorem findIdx?_none_of_all {α : Type} (p : α → Bool) :
    ∀ (l : List α) (i : Nat), (∀ a ∈ l, p a = false) →
      List.findIdx? p l i = none := by
  intro l
  induction l with
  | nil => intro i _; rfl
  | cons a l ih =>
    intro i h
    rw [List.findIdx?]
    rw [h a (List.mem_cons_self a l)]
    exact ih (i + 1) (fun x hx => h x (List.mem_cons_of_mem a hx))

theorem findIdx?_first {α : Type} (p : α → Bool) :
    ∀ (pre : List α) (a : α) (post : List α) (i : Nat),
      (∀ x ∈ pre, p x = false) → p a = true →
      List.findIdx? p (pre ++ a :: post) i = some (i + pre.length) := by
  intro pre
  induction pre with
  | nil =>
    intro a post i _ ha
    rw [List.nil_append, List.findIdx?, ha]
    rfl
  | cons x pre ih =>
    intro a post i h ha
    rw [List.cons_append, List.findIdx?]
    rw [h x (List.mem_cons_self x pre)]
    rw [ih a post (i + 1) (fun y hy => h y (List.mem_cons_of_mem x hy)) ha]
    simp
    omega

theorem getElem?_append_cons {α : Type} :
    ∀ (pre : List α) (a : α) (post : List α),
      (pre ++ a :: post)[pre.length]? = some a := by
  intro pre
  induction pre with
  | nil => intro a post; simp
  | cons x pre ih => intro a post; simpa using ih a post

theorem set_append_cons {α : Type} :
    ∀ (pre : List α) (a b : α) (post : List α),
      (pre ++ a :: post).set pre.length b = pre ++ b :: post := by
  intro pre
  induction pre with
  | nil => intro a b post; rfl
  | cons x pre ih =>
    intro a b post
    simp [List.set, ih a b post]

theorem contentAppend_first_assistant
    (pre : List OptimisticMessage) (a : OptimisticMessage)
    (post : List OptimisticMessage) (chunk : String)
    (hpre : ∀ m ∈ pre, (m.role == "assistant") = false)
    (ha : (a.role == "assistant") = true) :
    contentAppend (pre ++ a :: post) chunk =
      pre ++ OptimisticMessage.mk a.role (a.content ++ chunk) true :: post := by
  rw [contentAppend]
  rw [if_neg (by simp)]
  rw [findIdx?_first _ pre a post 0 hpre ha]
  simp only [Nat.zero_add]
  rw [getElem?_append_cons pre a post]
  show (pre ++ a :: post).set pre.length
      (OptimisticMessage.mk a.role (a.content ++ chunk) true) =
    pre ++ OptimisticMessage.mk a.role (a.content ++ chunk) true :: post
  rw [set_append_cons pre a _ post]

theorem contentAppend_no_assistant
    (ms : List OptimisticMessage) (chunk : String)
    (h : ∀ m ∈ ms, (m.role == "assistant") = false) :
    contentAppend ms chunk =
      if ms.length = 0 then [OptimisticMessage.mk "assistant" chunk true]
      else ms ++ [OptimisticMessage.mk "assistant" chunk true] := by
  cases ms with
  | nil => rfl
  | cons m rest =>
    rw [contentAppend]
    rw [if_neg (by simp), if_neg (by simp)]
    rw [findIdx?_none_of_all _ (m :: rest) 0 h]

theorem filter_eq_nil_of_all_false {α : Type} (p : α → Bool)
    (l : List α) (h : ∀ a ∈ l, p a = false) : l.filter p = [] := by
  rw [List.filter_eq_nil_iff]
  intro a ha
  rw [h a ha]
  simp

theorem first_assistant_decomp :
    ∀ (ms : List OptimisticMessage),
      (∀ m ∈ ms, (m.role == "assistant") = false) ∨
      ∃ pre a post, ms = pre ++ a :: post ∧
        (∀ m ∈ pre, (m.role == "assistant") = false) ∧
        (a.role == "assistant") = true := by
  intro ms
  induction ms with
  | nil => left; intro m hm; cases hm
  | cons m rest ih =>
    cases hm : (m.role == "assistant") with
    | true =>
      right
      exact ⟨[], m, rest, by simp, by simp, hm⟩
    | false =>
      cases ih with
      | inl hall =>
        left
        intro x hx
        cases List.mem_cons.mp hx with
        | inl he => rw [he]; exact hm
        | inr hr => exact hall x hr
      | inr hex =>
        obtain ⟨pre, a, post, hsplit, hpre, ha⟩ := hex
        right
        refine ⟨m :: pre, a, post, by rw [hsplit, List.cons_append], ?_, ha⟩
        intro x hx
        cases List.mem_cons.mp hx with
        | inl he => rw [he]; exact hm
        | inr hr => exact hpre x hr

theorem assistantEntryCount_append (l1 l2 : List OptimisticMessage) :
    assistantEntryCount (l1 ++ l2) =
      assistantEntryCount l1 + assistantEntryCount l2 := by
  simp [assistantEntryCount, List.filter_append]

theorem contentAppend_count (ms : List OptimisticMessage) (chunk : String)
    (h : assistantEntryCount ms ≤ 1) :
    assistantEntryCount (contentAppend ms chunk) ≤ 1 := by
  cases first_assistant_decomp ms with
  | inl hall =>
    rw [contentAppend_no_assistant ms chunk hall]
    have hz : assistantEntryCount ms = 0 := by
      simp [assistantEntryCount, filter_eq_nil_of_all_false _ ms hall]
    by_cases hlen : ms.length = 0
    · rw [if_pos hlen]
      simp [assistantEntryCount, List.filter]
    · rw [if_neg hlen, assistantEntryCount_append, hz]
      simp [assistantEntryCount, List.filter]
  | inr hex =>
    obtain ⟨pre, a, post, hsplit, hpre, ha⟩ := hex
    subst hsplit
    rw [contentAppend_first_assistant pre a post chunk hpre ha]
    rw [assistantEntryCount_append] at h ⊢
    simp only [assistantEntryCount, List.filter, ha] at h ⊢
    simpa using h

theorem pendingAssistantCount_le :
    ∀ (ms : List OptimisticMessage),
      pendingAssistantCount ms ≤ assistantEntryCount ms := by
  intro ms
  induction ms with
  | nil => decide
  | cons m rest ih =>
    simp only [pendingAssistantCount, assistantEntryCount, List.filter] at ih ⊢
    cases hr : (m.role == "assistant") <;> cases hp : m.pending <;>
      simp only [Bool.true_and, Bool.false_and, Bool.and_true, Bool.and_false,
        List.length_cons] <;> omega


/-! ### Claim C5 -/

/-- C5: Content append semantics — a `Content` chunk is appended by string
concatenation to the first (single) assistant entry, which stays pending;
when no assistant entry exists one is created pending; every page-level
operation keeps at most one assistant entry (hence at most one pending
assistant entry, by `pendingAssistantCount_le`); and the chunks `"Hello"`,
`" world"` applied after `handleBeforeSend` yield a pending assistant
message `"Hello world"`. -/
theorem C5_content_append_semantics :
    (∀ (pre : List OptimisticMessage) (a : OptimisticMessage)
      (post : List OptimisticMessage) (chunk : String),
      (∀ m ∈ pre, ¬ m.role = "assistant") → a.role = "assistant" →
      contentAppend (pre ++ a :: post) chunk =
        pre ++ OptimisticMessage.mk a.role (a.content ++ chunk) true :: post)
    ∧ (∀ (ms : List OptimisticMessage) (chunk : String),
        (∀ m ∈ ms, ¬ m.role = "assistant") →
        contentAppend ms chunk =
          if ms.length = 0 then [OptimisticMessage.mk "assistant" chunk true]
          else ms ++ [OptimisticMessage.mk "assistant" chunk true])
    ∧ (∀ (ms : List OptimisticMessage),
        pendingAssistantCount ms ≤ assistantEntryCount ms)
    ∧ (∀ (ms : List OptimisticMessage) (chunk : String),
        assistantEntryCount ms ≤ 1 →
        assistantEntryCount (contentAppend ms chunk) ≤ 1)
    ∧ (∀ (st : SessionState) (m : String),
        assistantEntryCount (onBeforeSend st m).optimisticMessages = 1)
    ∧ (∀ (st : SessionState) (e : ChatStreamEvent),
        assistantEntryCount st.optimisticMessages ≤ 1 →
        assistantEntryCount (onStreamEvent st e).optimisticMessages ≤ 1)
    ∧ (∀ (st : SessionState) (r : ChatResponse),
        assistantEntryCount (onResponse st r).optimisticMessages = 0)
    ∧ (∀ (st : SessionState) (m : String),
        assistantEntryCount (onError st m).optimisticMessages = 0)
    ∧ contentAppend (contentAppend
        [⟨"user", "hi", false⟩, ⟨"assistant", "", true⟩] "Hello") " world" =
        [⟨"user", "hi", false⟩, ⟨"assistant", "Hello world", true⟩] := by
  have hbool : ∀ (l : List OptimisticMessage),
      (∀ m ∈ l, ¬ m.role = "assistant") →
      (∀ m ∈ l, (m.role == "assistant") = false) := by
    intro l h m hm
    exact beq_eq_false_iff_ne.mpr (h m hm)
  refine ⟨?_, ?_, pendingAssistantCount_le, contentAppend_count, ?_, ?_, ?_,
    ?_, by decide⟩
  · intro pre a post chunk hpre ha
    exact contentAppend_first_assistant pre a post chunk (hbool pre hpre)
      (beq_iff_eq.mpr ha)
  · intro ms chunk hms
    exact contentAppend_no_assistant ms chunk (hbool ms hms)
  · intro st m
    simp [onBeforeSend, handleBeforeSend, assistantEntryCount, List.filter]
  · intro st e h
    cases e with
    | start cid => simpa [onStreamEvent, handleStreamEvent] using h
    | content chunk =>
        simpa [onStreamEvent, handleStreamEvent] using
          contentAppend_count st.optimisticMessages chunk h
    | complete cid msgs => simpa [onStreamEvent, handleStreamEvent] using h
    | error e =>
        simp [onStreamEvent, handleStreamEvent, handleSendError,
          assistantEntryCount]
  · intro st r
    simp [onResponse, handleResponse, assistantEntryCount]
  · intro st m
    simp [onError, handleSendError, assistantEntryCount]

/-- C5 witness: concrete instances — appending to the pending assistant
entry after `handleBeforeSend`, and invariant preservation for a concrete
content event. -/
theorem C5_content_append_semantics_witness :
    contentAppend ([⟨"user", "hi", false⟩] ++ ⟨"assistant", "A", true⟩ :: [])
        "B" =
      [⟨"user", "hi", false⟩] ++
        OptimisticMessage.mk "assistant" ("A" ++ "B") true :: []
    ∧ assistantEntryCount
        ((onStreamEvent emptyState
          (ChatStreamEvent.content "B")).optimisticMessages) ≤ 1 := by
  constructor
  · exact C5_content_append_semantics.1 [⟨"user", "hi", false⟩]
      ⟨"assistant", "A", true⟩ [] "B" (by decide) (by decide)
  · exact C5_content_append_semantics.2.2.2.2.2.1 emptyState
      (ChatStreamEvent.content "B") (by decide)

/-! ### Claims C8 and C9 -/

theorem applyEvent_isSending (L : StreamLoop) (e : ChatStreamEvent) :
    (applyEvent L e).st.isSending = L.st.isSending := by
  cases e <;>
    simp [applyEvent, onError, onResponse, onStreamEvent, handleStreamEvent,
      handleSendError, handleResponse]

theorem processEvent_isSending (decode : List Char → Option ChatStreamEvent)
    (L : StreamLoop) (rawEvent : List Char) :
    (processEvent decode L rawEvent).st.isSending = L.st.isSending := by
  rw [processEvent]
  cases parseRecord decode rawEvent with
  | none => rfl
  | some payload => exact applyEvent_isSending L payload

theorem foldl_processEvent_isSending
    (decode : List Char → Option ChatStreamEvent) :
    ∀ (records : List (List Char)) (L : StreamLoop),
      (records.foldl (processEvent decode) L).st.isSending =
        L.st.isSending := by
  intro records
  induction records with
  | nil => intro L; rfl
  | cons r rs ih =>
    intro L
    rw [List.foldl_cons, ih (processEvent decode L r),
      processEvent_isSending]

theorem flushBuffer_isSending (decode : List Char → Option ChatStreamEvent)
    (L : StreamLoop) :
    (flushBuffer decode L).st.isSending = L.st.isSending := by
  rw [flushBuffer]
  exact foldl_processEvent_isSending decode _ _

theorem flushFinal_isSending (decode : List Char → Option ChatStreamEvent)
    (L : StreamLoop) :
    (flushFinal decode L).st.isSending = L.st.isSending := by
  rw [flushFinal]
  by_cases h : 0 < (trimChars (flushBuffer decode L).buffer).length
  · rw [if_pos h, processEvent_isSending]
    exact flushBuffer_isSending decode L
  · rw [if_neg h]
    exact flushBuffer_isSending decode L

theorem readLoop_isSending (decode : List Char → Option ChatStreamEvent) :
    ∀ (fragments : List (List Char)) (L : StreamLoop),
      (readLoop decode L fragments).1.st.isSending = L.st.isSending
      ∧ ∀ L' ∈ (readLoop decode L fragments).2,
          L'.st.isSending = L.st.isSending := by
  intro fragments
  induction fragments with
  | nil =>
    intro L
    refine ⟨flushFinal_isSending decode L, ?_⟩
    intro L' hL'
    exact absurd hL' (List.not_mem_nil L')
  | cons f rest ih =>
    intro L
    rw [readLoop]
    by_cases h :
        (flushBuffer decode { L with buffer := L.buffer ++ f }).encounteredError
    · rw [if_pos h]
      have hs : (flushBuffer decode
          { L with buffer := L.buffer ++ f }).st.isSending =
          L.st.isSending := flushBuffer_isSending decode _
      refine ⟨hs, ?_⟩
      intro L' hL'
      rw [List.mem_singleton] at hL'
      rw [hL']
      exact hs
    · rw [if_neg h]
      have hs : (flushBuffer decode
          { L with buffer := L.buffer ++ f }).st.isSending =
          L.st.isSending := flushBuffer_isSending decode _
      have hrec := ih (flushBuffer decode { L with buffer := L.buffer ++ f })
      refine ⟨hrec.1.trans hs, ?_⟩
      intro L' hL'
      cases List.mem_cons.mp hL' with
      | inl he => rw [he]; exact hs
      | inr hr => exact (hrec.2 L' hr).trans hs

/-- C8: Sending-flag invariant — for every submit call that passes the
non-empty precondition, `isSending` is `true` at every read-suspension
point of the in-flight request and is reset to `false` on every exit path
of both the streaming and fallback modes, including every error path. -/
theorem C8_sending_flag_invariant
    (decode : List Char → Option ChatStreamEvent) (st : SessionState)
    (providedConversationId : Option String) (message : String)
    (useStreaming : Bool) (transport : TransportModel)
    (h : ¬ trimString message = "") :
    (sendMessage decode st providedConversationId message useStreaming
      transport).1.isSending = false
    ∧ ∀ L ∈ (sendMessage decode st providedConversationId message
        useStreaming transport).2.2, L.st.isSending = true := by
  obtain ⟨sf, fr⟩ := transport
  rw [sendMessage]
  simp only []
  rw [if_neg h]
  cases useStreaming with
  | false =>
    rw [if_pos rfl]
    cases fr with
    | ok payload =>
      exact ⟨rfl, fun L hL => absurd hL (List.not_mem_nil L)⟩
    | error m =>
      exact ⟨rfl, fun L hL => absurd hL (List.not_mem_nil L)⟩
  | true =>
    rw [if_neg (by decide)]
    cases sf with
    | none =>
      exact ⟨rfl, fun L hL => absurd hL (List.not_mem_nil L)⟩
    | some fragments =>
      simp only []
      by_cases henc : (readLoop decode
          ⟨{ onBeforeSend { st with isSending := true, error := none }
              (trimString message) with
             requestLog := (onBeforeSend
              { st with isSending := true, error := none }
              (trimString message)).requestLog ++
              [ChatRequest.mk (trimString message)
                (match providedConversationId with
                 | some cid => some cid
                 | none => (onBeforeSend
                    { st with isSending := true, error := none }
                    (trimString message)).conversationId)] },
            [], false⟩ fragments).1.encounteredError
      · rw [if_pos henc]
        refine ⟨rfl, ?_⟩
        intro L hL
        exact ((readLoop_isSending decode fragments _).2 L hL).trans rfl
      · rw [if_neg henc]
        refine ⟨rfl, ?_⟩
        intro L hL
        exact ((readLoop_isSending decode fragments _).2 L hL).trans rfl

/-- C8 witness: a concrete streaming call with one fragment — the flag is
true at the read suspension and false at the end. -/
theorem C8_sending_flag_invariant_witness :
    (sendMessage decodeFix emptyState none "hi" true
      ⟨some [("data: P1\n\n").data], FallbackResult.error "u"⟩).1.isSending
        = false
    ∧ ∀ L ∈ (sendMessage decodeFix emptyState none "hi" true
        ⟨some [("data: P1\n\n").data], FallbackResult.error "u"⟩).2.2,
        L.st.isSending = true :=
  C8_sending_flag_invariant decodeFix emptyState none "hi" true
    ⟨some [("data: P1\n\n").data], FallbackResult.error "u"⟩ (by decide)

/-- C9: Empty-input no-op — a message that is empty after trimming issues
no request, invokes no hook, raises no error, and leaves the session state
unchanged. -/
theorem C9_empty_input_noop
    (decode : List Char → Option ChatStreamEvent) (st : SessionState)
    (providedConversationId : Option String) (message : String)
    (useStreaming : Bool) (transport : TransportModel)
    (h : trimString message = "") :
    sendMessage decode st providedConversationId message useStreaming
      transport = (st, SendResult.ok none, []) := by
  rw [sendMessage]
  simp only []
  rw [if_pos h]

/-- C9 witness: a whitespace-only message is a silent no-op on a concrete
state. -/
theorem C9_empty_input_noop_witness :
    sendMessage decodeFix emptyState none "  " true
      ⟨none, FallbackResult.error "u"⟩ = (emptyState, SendResult.ok none, []) :=
  C9_empty_input_noop decodeFix emptyState none "  " true
    ⟨none, FallbackResult.error "u"⟩ (by decide)

/-! ### Claim C4 -/

/-- C4 counterexample: the claim says the message recorded from the `Error`
event is the last error message retained when the call rejects; in the code
the catch handler overwrites it with the stream-failure text.  With an
`Error` event carrying `"boom"`, the retained session error is
`"Streaming failed."`, not `"boom"`. -/
theorem C4_error_retention_counterexample :
    (sendMessage (fun s => if s = ("P").data
        then some (ChatStreamEvent.error (some "boom")) else none)
      emptyState none "hello" true
      ⟨some [("data: P\n\n").data], FallbackResult.error "u"⟩).2.1 =
      SendResult.error "Streaming failed."
    ∧ (sendMessage (fun s => if s = ("P").data
        then some (ChatStreamEvent.error (some "boom")) else none)
      emptyState none "hello" true
      ⟨some [("data: P\n\n").data], FallbackResult.error "u"⟩).1.error =
      some "Streaming failed."
    ∧ ¬ (sendMessage (fun s => if s = ("P").data
        then some (ChatStreamEvent.error (some "boom")) else none)
      emptyState none "hello" true
      ⟨some [("data: P\n\n").data], FallbackResult.error "u"⟩).1.error =
      some "boom" := by
  refine ⟨by decide, by decide, by decide⟩

/-- C4 (amended): when an `Error` event is observed, the controller records
the signaled message (or the fixed default text when the event carries
none) as the session error and invokes the error hook with that message —
the loop state retains it at the read suspension; after the loop the call
rejects with the stream-failure error `"Streaming failed."`, the error hook
is invoked again with that text, and the stream-failure text — not the
message recorded from the `Error` event — is the error retained in session
state when the call rejects. -/
theorem C4_error_recording_amended (st : SessionState)
    (provided : Option String) (em : Option String) (message : String)
    (fr : FallbackResult) (h : ¬ trimString message = "") :
    (sendMessage (fun s => if s = ("P").data
        then some (ChatStreamEvent.error em) else none)
      st provided message true
      ⟨some [("data: P\n\n").data], fr⟩).1.error =
      some "Streaming failed."
    ∧ (sendMessage (fun s => if s = ("P").data
        then some (ChatStreamEvent.error em) else none)
      st provided message true
      ⟨some [("data: P\n\n").data], fr⟩).1.streamError =
      some "Streaming failed."
    ∧ (sendMessage (fun s => if s = ("P").data
        then some (ChatStreamEvent.error em) else none)
      st provided message true
      ⟨some [("data: P\n\n").data], fr⟩).1.errorLog =
      st.errorLog ++ [em.getD defaultStreamErrorText, "Streaming failed."]
    ∧ (sendMessage (fun s => if s = ("P").data
        then some (ChatStreamEvent.error em) else none)
      st provided message true
      ⟨some [("data: P\n\n").data], fr⟩).2.1 =
      SendResult.error "Streaming failed."
    ∧ ((sendMessage (fun s => if s = ("P").data
        then some (ChatStreamEvent.error em) else none)
      st provided message true
      ⟨some [("data: P\n\n").data], fr⟩).2.2.map (fun L => L.st.error)) =
      [some (em.getD defaultStreamErrorText)] := by
  have hs : splitRecords (("data: P\n\n").data) = ([("data: P").data], []) := rfl
  have hparse : parseRecord (fun s => if s = ("P").data
      then some (ChatStreamEvent.error em) else none) (("data: P").data) =
      some (ChatStreamEvent.error em) := by
    rw [parseRecord, show extractPayload (("data: P").data) =
      some (("P").data) from rfl]
    simp
  rw [sendMessage]
  simp only []
  rw [if_neg h, if_neg (by decide)]
  simp only [readLoop, flushBuffer, List.nil_append, hs, List.foldl_cons,
    List.foldl_nil, processEvent, hparse]
  simp [applyEvent, onError, onStreamEvent, handleStreamEvent, handleSendError,
    onBeforeSend, handleBeforeSend]

/-- C4 witness: concrete instance of the amended claim with an `Error`
event carrying `"boom"`. -/
theorem C4_error_recording_amended_witness :
    (sendMessage (fun s => if s = ("P").data
        then some (ChatStreamEvent.error (some "boom")) else none)
      emptyState none "hello" true
      ⟨some [("data: P\n\n").data], FallbackResult.error "u"⟩).1.errorLog =
      emptyState.errorLog ++
        [(some "boom").getD defaultStreamErrorText, "Streaming failed."] :=
  (C4_error_recording_amended emptyState none (some "boom") "hello"
    (FallbackResult.error "u") (by decide)).2.2.1

/-! ### Claim C2 -/

/-- C2 counterexample: with records `Start`, `Error\x7b\x7d`, `Content` all
delivered in one network fragment, the read loop flushes the whole fragment
before checking `encounteredError`: the trailing `Content` event is still
forwarded to the stream-event hook and applied to the optimistic messages
even though the `Error` was already observed — refuting "regardless of how
the records were split into network fragments". -/
theorem C2_error_short_circuit_counterexample :
    ((flushBuffer decodeFix
      ⟨emptyState, ("data: P1\n\ndata: P2\n\ndata: P3\n\n").data,
        false⟩).encounteredError) = true
    ∧ ((flushBuffer decodeFix
      ⟨emptyState, ("data: P1\n\ndata: P2\n\ndata: P3\n\n").data,
        false⟩).st.optimisticMessages) = [⟨"assistant", "more", true⟩]
    ∧ (sendMessage decodeFix emptyState none "hello" true
        ⟨some [("data: P1\n\ndata: P2\n\ndata: P3\n\n").data],
          FallbackResult.error "u"⟩).1.eventLog =
      [ChatStreamEvent.start "c1", ChatStreamEvent.error none,
        ChatStreamEvent.content "more"] := by
  refine ⟨by decide, by decide, by decide⟩

/-- C2 (amended): once the fragment whose records include the `Error` event
has been fully flushed, the read loop terminates: fragments delivered after
it are never read, so events they carry are never applied (the loop result
for `fragment :: rest` equals the result for `[fragment]` alone).  In the
spec's example — records `Start`, `Error\x7b\x7d` arriving before a fragment
boundary and `Content` after it — the error hook is invoked with the
default error text and the trailing `Content` event is never applied;
events that share the error's fragment, however, are still applied. -/
theorem C2_error_short_circuit_amended :
    (∀ (decode : List Char → Option ChatStreamEvent) (L : StreamLoop)
      (fragment : List Char) (rest : List (List Char)),
      (flushBuffer decode
        { L with buffer := L.buffer ++ fragment }).encounteredError = true →
      readLoop decode L (fragment :: rest) = readLoop decode L [fragment])
    ∧ (sendMessage decodeFix emptyState none "hello" true
        ⟨some [("data: P1\n\ndata: P2\n\n").data, ("data: P3\n\n").data],
          FallbackResult.error "u"⟩).1.eventLog =
        [ChatStreamEvent.start "c1", ChatStreamEvent.error none]
    ∧ (sendMessage decodeFix emptyState none "hello" true
        ⟨some [("data: P1\n\ndata: P2\n\n").data, ("data: P3\n\n").data],
          FallbackResult.error "u"⟩).1.errorLog =
        [defaultStreamErrorText, "Streaming failed."]
    ∧ (sendMessage decodeFix emptyState none "hello" true
        ⟨some [("data: P1\n\ndata: P2\n\n").data, ("data: P3\n\n").data],
          FallbackResult.error "u"⟩).2.1 =
        SendResult.error "Streaming failed." := by
  refine ⟨?_, by decide, by decide, by decide⟩
  intro decode L fragment rest h
  rw [readLoop, readLoop]
  simp only [h, if_true]

/-- C2 witness: the loop-truncation part applied at a concrete error
fragment followed by a further fragment. -/
theorem C2_error_short_circuit_amended_witness :
    readLoop decodeFix ⟨emptyState, [], false⟩
      [("data: P2\n\n").data, ("data: P3\n\n").data] =
    readLoop decodeFix ⟨emptyState, [], false⟩ [("data: P2\n\n").data] :=
  C2_error_short_circuit_amended.1 decodeFix ⟨emptyState, [], false⟩
    ("data: P2\n\n").data [("data: P3\n\n").data] (by decide)

/-! ### Claim C7 -/

theorem sendMessage_trim_empty
    (decode : List Char → Option ChatStreamEvent) (st : SessionState)
    (provided : Option String) (message : String) (useStreaming : Bool)
    (transport : TransportModel) (h : trimString message = "") :
    sendMessage decode st provided message useStreaming transport =
      (st, SendResult.ok none, []) := by
  rw [sendMessage]
  simp only []
  rw [if_pos h]

theorem sendMessage_fallback_ok_fields
    (decode : List Char → Option ChatStreamEvent) (st : SessionState)
    (provided : Option String) (message : String)
    (sf : Option (List (List Char))) (resp : ChatResponse)
    (h : ¬ trimString message = "") :
    (sendMessage decode st provided message false
      ⟨sf, FallbackResult.ok resp⟩).1.conversationId =
        some resp.conversation_id
    ∧ (sendMessage decode st provided message false
        ⟨sf, FallbackResult.ok resp⟩).1.optimisticMessages = []
    ∧ (sendMessage decode st provided message false
        ⟨sf, FallbackResult.ok resp⟩).1.chatCache =
        (resp.conversation_id, resp) :: st.chatCache
    ∧ (sendMessage decode st provided message false
        ⟨sf, FallbackResult.ok resp⟩).1.streamError = none
    ∧ (sendMessage decode st provided message false
        ⟨sf, FallbackResult.ok resp⟩).2.1 = SendResult.ok (some resp) := by
  rw [sendMessage]
  simp only []
  rw [if_neg h]
  simp only [reduceIte]
  simp [onResponse, handleResponse, onBeforeSend, handleBeforeSend]

theorem sendMessage_stream_complete_fields (st : SessionState)
    (provided : Option String) (message : String) (resp : ChatResponse)
    (fr : FallbackResult) (h : ¬ trimString message = "") :
    (sendMessage (fun s => if s = ("P").data
        then some (ChatStreamEvent.complete resp.conversation_id resp.messages)
        else none) st provided message true
      ⟨some [("data: P\n\n").data], fr⟩).1.conversationId =
        some resp.conversation_id
    ∧ (sendMessage (fun s => if s = ("P").data
        then some (ChatStreamEvent.complete resp.conversation_id resp.messages)
        else none) st provided message true
      ⟨some [("data: P\n\n").data], fr⟩).1.optimisticMessages = []
    ∧ (sendMessage (fun s => if s = ("P").data
        then some (ChatStreamEvent.complete resp.conversation_id resp.messages)
        else none) st provided message true
      ⟨some [("data: P\n\n").data], fr⟩).1.chatCache =
        (resp.conversation_id,
          synthesizeResponse resp.conversation_id resp.messages) ::
          st.chatCache
    ∧ (sendMessage (fun s => if s = ("P").data
        then some (ChatStreamEvent.complete resp.conversation_id resp.messages)
        else none) st provided message true
      ⟨some [("data: P\n\n").data], fr⟩).1.streamError = none
    ∧ (sendMessage (fun s => if s = ("P").data
        then some (ChatStreamEvent.complete resp.conversation_id resp.messages)
        else none) st provided message true
      ⟨some [("data: P\n\n").data], fr⟩).2.1 = SendResult.ok none := by
  have hs : splitRecords (("data: P\n\n").data) = ([("data: P").data], []) := rfl
  have hparse : parseRecord (fun s => if s = ("P").data
      then some (ChatStreamEvent.complete resp.conversation_id resp.messages)
      else none) (("data: P").data) =
      some (ChatStreamEvent.complete resp.conversation_id resp.messages) := by
    rw [parseRecord, show extractPayload (("data: P").data) =
      some (("P").data) from rfl]
    simp
  rw [sendMessage]
  simp only []
  rw [if_neg h, if_neg (by decide)]
  simp only [readLoop, flushBuffer, List.nil_append, hs, List.foldl_cons,
    List.foldl_nil, processEvent, hparse, flushFinal]
  simp [applyEvent, onResponse, handleResponse, onStreamEvent,
    handleStreamEvent, onBeforeSend, handleBeforeSend, trimChars,
    splitRecords, synthesizeResponse]

/-- C7: Fallback equivalence — for every message and every server reply,
submitting in fallback (non-streaming) mode produces a final session state
with the same `conversationId`, the same observable message list and the
same optimistic list and stream-error slot as submitting in streaming mode
against the equivalent server response collapsed into a single `Complete`
event. -/
theorem C7_fallback_equivalence (st : SessionState)
    (provided : Option String) (message : String) (resp : ChatResponse)
    (sf : Option (List (List Char))) (fr : FallbackResult) :
    (sendMessage (fun s => if s = ("P").data
        then some (ChatStreamEvent.complete resp.conversation_id resp.messages)
        else none) st provided message false
      ⟨sf, FallbackResult.ok resp⟩).1.conversationId =
    (sendMessage (fun s => if s = ("P").data
        then some (ChatStreamEvent.complete resp.conversation_id resp.messages)
        else none) st provided message true
      ⟨some [("data: P\n\n").data], fr⟩).1.conversationId
    ∧ combinedMessages (sendMessage (fun s => if s = ("P").data
        then some (ChatStreamEvent.complete resp.conversation_id resp.messages)
        else none) st provided message false
      ⟨sf, FallbackResult.ok resp⟩).1 resp.conversation_id =
      combinedMessages (sendMessage (fun s => if s = ("P").data
        then some (ChatStreamEvent.complete resp.conversation_id resp.messages)
        else none) st provided message true
      ⟨some [("data: P\n\n").data], fr⟩).1 resp.conversation_id
    ∧ (sendMessage (fun s => if s = ("P").data
        then some (ChatStreamEvent.complete resp.conversation_id resp.messages)
        else none) st provided message false
      ⟨sf, FallbackResult.ok resp⟩).1.optimisticMessages =
      (sendMessage (fun s => if s = ("P").data
        then some (ChatStreamEvent.complete resp.conversation_id resp.messages)
        else none) st provided message true
      ⟨some [("data: P\n\n").data], fr⟩).1.optimisticMessages := by
  by_cases h : trimString message = ""
  · rw [sendMessage_trim_empty _ st provided message false _ h,
      sendMessage_trim_empty _ st provided message true _ h]
    exact ⟨rfl, rfl, rfl⟩
  · obtain ⟨f1, f2, f3, f4, f5⟩ :=
      sendMessage_fallback_ok_fields (fun s => if s = ("P").data
        then some (ChatStreamEvent.complete resp.conversation_id resp.messages)
        else none) st provided message sf resp h
    obtain ⟨s1, s2, s3, s4, s5⟩ :=
      sendMessage_stream_complete_fields st provided message resp fr h
    refine ⟨?_, ?_, ?_⟩
    · rw [f1, s1]
    · rw [combinedMessages, combinedMessages, serverMessages, serverMessages,
        f3, s3, f2, s2]
      simp [List.lookup, synthesizeResponse]
    · rw [f2, s2]

end Dalia
